import Mathlib

/-!
Shallow embedding of the `SimpleBayesianOptimizer` core and the session
state machine of the bayesian-optimization-app repository
(`src/app/flask 依赖/page.tsx`, main in-process variant), together with
theorems settling the specification claims.  JavaScript numbers are
modelled as real numbers; the stochastic `Math.random()` source is
modelled as an injected stream `rnd : ℕ → ℝ` consumed sequentially, as
the spec itself mandates for deterministic testing.
-/

namespace BayesApp

noncomputable section

/-- One logged observation: a numeric parameter vector and its objective value. -/
structure Observation where
  params : List ℝ
  value : ℝ

/-- State of `SimpleBayesianOptimizer`: the observation log, the per-dimension
bounds (each JS `[min, max]` pair), and the direction flag. -/
structure SimpleBayesianOptimizer where
  observations : List Observation
  bounds : List (ℝ × ℝ)
  maximize : Bool

/-- Source `addObservation(params, value)`: append-only push onto the log. -/
def addObservation (o : SimpleBayesianOptimizer) (params : List ℝ) (value : ℝ) :
    SimpleBayesianOptimizer :=
  { o with observations := o.observations ++ [⟨params, value⟩] }

/-- Source `calculateDistance(a, b)`: Euclidean distance
`sqrt(Σ (a[i] - b[i])²)`; the source iterates over `a`'s indices and all
call sites pass equally long vectors, which `zip` reproduces. -/
def calculateDistance (a b : List ℝ) : ℝ :=
  Real.sqrt (((a.zip b).map (fun p => (p.1 - p.2) ^ 2)).sum)

/-- Source `estimateMean(params)`: inverse-distance-weighted average of logged values,
accumulating `(totalWeight, weightedSum)` over the log as the source does. -/
noncomputable def estimateMean (o : SimpleBayesianOptimizer) (params : List ℝ) : ℝ :=
  let acc := o.observations.foldl
    (fun (acc : ℝ × ℝ) obs =>
      let distance := calculateDistance params obs.params
      let weight := 1 / (1 + distance)
      (acc.1 + weight, acc.2 + weight * obs.value))
    (0, 0)
  if acc.1 > 0 then acc.2 / acc.1 else 0

/-- Source `calculateExploration(params)`: distance to the nearest logged observation.
The JS sentinel `Infinity` (no observation seen yet) is modelled by `none`;
any real distance compares below it, exactly as in the source. -/
noncomputable def calculateExploration (o : SimpleBayesianOptimizer) (params : List ℝ) : ℝ :=
  let minDistance := o.observations.foldl
    (fun (m : Option ℝ) obs =>
      let distance := calculateDistance params obs.params
      match m with
      | none => some distance
      | some d => if distance < d then some distance else some d)
    none
  match minDistance with
  | none => 1
  | some d => d

/-- Source `calculateAcquisition(params)`: `mean + exploration` when maximizing,
`mean - exploration` when minimizing. -/
noncomputable def calculateAcquisition (o : SimpleBayesianOptimizer) (params : List ℝ) : ℝ :=
  let mean := estimateMean o params
  let exploration := calculateExploration o params
  if o.maximize then mean + exploration else mean - exploration

/-- Comparison used by both the candidate loop and the best-result scan:
`(this.maximize && a > b) || (!this.maximize && a < b)`. -/
def beats (mx : Bool) (a b : ℝ) : Prop :=
  (mx = true ∧ a > b) ∨ (mx = false ∧ a < b)

instance (mx : Bool) (a b : ℝ) : Decidable (beats mx a b) := by
  unfold beats; infer_instance

/-- Sampling of one candidate vector: coordinate `i` is
`min + Math.random() * (max - min)` with the stream consumed sequentially
starting at offset `k`. -/
def sampleVector (bounds : List (ℝ × ℝ)) (rnd : ℕ → ℝ) (k : ℕ) : List ℝ :=
  bounds.enum.map (fun pr => pr.2.1 + rnd (k + pr.1) * (pr.2.2 - pr.2.1))

/-- Source `acquisitionFunction()`: draw 100 candidates, keep the one whose
acquisition strictly beats the incumbent; `bestAcquisition = ±Infinity`
initially is modelled by `none`, which any first score replaces, exactly
as any real compares against `±Infinity`. -/
noncomputable def acquisitionFunction (o : SimpleBayesianOptimizer) (rnd : ℕ → ℝ) : List ℝ :=
  let numCandidates := 100
  let result := (List.range numCandidates).foldl
    (fun (best : List ℝ × Option ℝ) i =>
      let candidate := sampleVector o.bounds rnd (i * o.bounds.length)
      let acquisition := calculateAcquisition o candidate
      match best.2 with
      | none => (candidate, some acquisition)
      | some b =>
        if beats o.maximize acquisition b then (candidate, some acquisition) else best)
    ([], none)
  result.1

/-- Source `suggest()`: uniform sampling while the log holds fewer than 3
observations, otherwise the acquisition-driven candidate search. -/
noncomputable def suggest (o : SimpleBayesianOptimizer) (rnd : ℕ → ℝ) : List ℝ :=
  if o.observations.length < 3 then
    sampleVector o.bounds rnd 0
  else
    acquisitionFunction o rnd

/-- Source `getBestResult()`: returns `{params: [], value: 0}` on an empty log,
otherwise scans indices `1..n-1` keeping the incumbent unless strictly
beaten. -/
def getBestResult (o : SimpleBayesianOptimizer) : Observation :=
  if o.observations.length = 0 then
    { params := [], value := 0 }
  else
    let vals := fun i => (o.observations.getD i ⟨[], 0⟩).value
    let bestIndex := ((List.range o.observations.length).drop 1).foldl
      (fun bestIndex i => if beats o.maximize (vals i) (vals bestIndex) then i else bestIndex)
      0
    o.observations.getD bestIndex ⟨[], 0⟩

end

lemma beats_irrefl (mx : Bool) (a : ℝ) : ¬ beats mx a a := by
  rcases mx <;> simp [beats]

lemma beats_true_iff (a b : ℝ) : beats true a b ↔ b < a := by
  simp [beats]

lemma beats_false_iff (a b : ℝ) : beats false a b ↔ a < b := by
  simp [beats]

lemma beats_asymm (mx : Bool) {a b : ℝ} (h : beats mx a b) : ¬ beats mx b a := by
  rcases mx <;> simp [beats] at h ⊢ <;> linarith

lemma beats_trans_not (mx : Bool) {a b c : ℝ} (h1 : beats mx a b) (h2 : ¬ beats mx c b) :
    beats mx a c := by
  rcases mx <;> simp [beats] at h1 h2 ⊢ <;> linarith

/-- The strict-improvement scan over indices `1..n-1` lands on an index whose
value no index beats, and which strictly beats every earlier index. -/
lemma foldBest_range (mx : Bool) (f : ℕ → ℝ) (n : ℕ) (hn : 1 ≤ n) :
    ((List.range n).drop 1).foldl
        (fun b i => if beats mx (f i) (f b) then i else b) 0 < n ∧
    (∀ j, j < n → ¬ beats mx (f j)
      (f (((List.range n).drop 1).foldl
        (fun b i => if beats mx (f i) (f b) then i else b) 0))) ∧
    (∀ j, j < ((List.range n).drop 1).foldl
        (fun b i => if beats mx (f i) (f b) then i else b) 0 →
      beats mx
        (f (((List.range n).drop 1).foldl
          (fun b i => if beats mx (f i) (f b) then i else b) 0)) (f j)) := by
  induction n, hn using Nat.le_induction with
  | base =>
    have h1 : (List.range 1).drop 1 = [] := rfl
    rw [h1, List.foldl_nil]
    refine ⟨Nat.one_pos, ?_, ?_⟩
    · intro j hj
      interval_cases j
      exact beats_irrefl mx (f 0)
    · intro j hj
      exact absurd hj (Nat.not_lt_zero j)
  | succ n hn ih =>
    have hdrop : (List.range (n + 1)).drop 1 = (List.range n).drop 1 ++ [n] := by
      rw [List.range_succ, List.drop_append_of_le_length]
      simpa using hn
    set g := fun (b i : ℕ) => if beats mx (f i) (f b) then i else b with hg
    have hfold : ((List.range (n + 1)).drop 1).foldl g 0 =
        g (((List.range n).drop 1).foldl g 0) n := by
      rw [hdrop, List.foldl_append, List.foldl_cons, List.foldl_nil]
    set b := ((List.range n).drop 1).foldl g 0 with hb
    obtain ⟨ih1, ih2, ih3⟩ := ih
    by_cases hbt : beats mx (f n) (f b)
    · have hres : ((List.range (n + 1)).drop 1).foldl g 0 = n := by
        rw [hfold, hg]; simp only [if_pos hbt]
      rw [hres]
      refine ⟨Nat.lt_succ_self n, ?_, ?_⟩
      · intro j hj
        rcases Nat.lt_succ_iff_lt_or_eq.mp hj with hj' | rfl
        · exact beats_asymm mx (beats_trans_not mx hbt (ih2 j hj'))
        · exact beats_irrefl mx (f j)
      · intro j hj
        exact beats_trans_not mx hbt (ih2 j hj)
    · have hres : ((List.range (n + 1)).drop 1).foldl g 0 = b := by
        rw [hfold, hg]; simp only [if_neg hbt]
      rw [hres]
      refine ⟨Nat.lt_succ_of_lt ih1, ?_, ih3⟩
      intro j hj
      rcases Nat.lt_succ_iff_lt_or_eq.mp hj with hj' | rfl
      · exact ih2 j hj'
      · exact hbt

/-- On a non-empty log, `getBestResult` returns the logged observation at an
index whose value no observation beats and which strictly beats all earlier
observations. -/
lemma getBestResult_spec (o : SimpleBayesianOptimizer) (h : o.observations ≠ []) :
    ∃ i, ∃ hi : i < o.observations.length,
      getBestResult o = o.observations.get ⟨i, hi⟩ ∧
      (∀ j (hj : j < o.observations.length),
        ¬ beats o.maximize (o.observations.get ⟨j, hj⟩).value (getBestResult o).value) ∧
      (∀ j (hj : j < o.observations.length), j < i →
        beats o.maximize (getBestResult o).value (o.observations.get ⟨j, hj⟩).value) := by
  have hlen : o.observations.length ≠ 0 := by
    simpa [List.length_eq_zero] using h
  have hn : 1 ≤ o.observations.length := Nat.one_le_iff_ne_zero.mpr hlen
  have hgd : ∀ j (hj : j < o.observations.length),
      o.observations.getD j ⟨[], 0⟩ = o.observations.get ⟨j, hj⟩ := by
    intro j hj
    rw [List.getD_eq_get?, List.get?_eq_get hj]
    rfl
  obtain ⟨h1, h2, h3⟩ := foldBest_range o.maximize
    (fun i => (o.observations.getD i ⟨[], 0⟩).value) o.observations.length hn
  set bi := ((List.range o.observations.length).drop 1).foldl
    (fun b i => if beats o.maximize ((o.observations.getD i ⟨[], 0⟩).value)
      ((o.observations.getD b ⟨[], 0⟩).value) then i else b) 0 with hbi
  have hgbr : getBestResult o = o.observations.getD bi ⟨[], 0⟩ := by
    rw [getBestResult, if_neg hlen]
  refine ⟨bi, h1, ?_, ?_, ?_⟩
  · rw [hgbr, hgd bi h1]
  · intro j hj
    rw [hgbr, ← hgd j hj]
    exact h2 j hj
  · intro j hj hji
    rw [hgbr, ← hgd j hj]
    exact h3 j hji

/-- Sample optimizer used by the C3 witness. -/
def oC3 : SimpleBayesianOptimizer := ⟨[⟨[2], 5⟩], [(0, 10)], false⟩

/-- C3: on a non-empty log, `getBestResult()` returns a logged observation
whose value is the true maximum (maximize) resp. minimum (minimize) over all
registered values, and every earlier-registered observation is strictly worse,
so exact ties resolve to the earliest-registered observation. -/
theorem getBestResult_extremum_earliest (o : SimpleBayesianOptimizer)
    (h : o.observations ≠ []) :
    ∃ i, ∃ hi : i < o.observations.length,
      getBestResult o = o.observations.get ⟨i, hi⟩ ∧
      (o.maximize = true →
        (∀ j (hj : j < o.observations.length),
          (o.observations.get ⟨j, hj⟩).value ≤ (getBestResult o).value) ∧
        (∀ j (hj : j < o.observations.length), j < i →
          (o.observations.get ⟨j, hj⟩).value < (getBestResult o).value)) ∧
      (o.maximize = false →
        (∀ j (hj : j < o.observations.length),
          (getBestResult o).value ≤ (o.observations.get ⟨j, hj⟩).value) ∧
        (∀ j (hj : j < o.observations.length), j < i →
          (getBestResult o).value < (o.observations.get ⟨j, hj⟩).value)) := by
  obtain ⟨i, hi, heq, hopt, hearly⟩ := getBestResult_spec o h
  refine ⟨i, hi, heq, ?_, ?_⟩
  · intro hmx
    constructor
    · intro j hj
      have hb := hopt j hj
      rw [hmx, beats_true_iff] at hb
      exact not_lt.mp hb
    · intro j hj hji
      have hb := hearly j hj hji
      rwa [hmx, beats_true_iff] at hb
  · intro hmx
    constructor
    · intro j hj
      have hb := hopt j hj
      rw [hmx, beats_false_iff] at hb
      exact not_lt.mp hb
    · intro j hj hji
      have hb := hearly j hj hji
      rwa [hmx, beats_false_iff] at hb

/-- Witness for C3 at a concrete one-element log. -/
theorem getBestResult_extremum_earliest_witness :
    oC3.observations ≠ [] ∧
    (∃ i, ∃ hi : i < oC3.observations.length,
      getBestResult oC3 = oC3.observations.get ⟨i, hi⟩ ∧
      (oC3.maximize = true →
        (∀ j (hj : j < oC3.observations.length),
          (oC3.observations.get ⟨j, hj⟩).value ≤ (getBestResult oC3).value) ∧
        (∀ j (hj : j < oC3.observations.length), j < i →
          (oC3.observations.get ⟨j, hj⟩).value < (getBestResult oC3).value)) ∧
      (oC3.maximize = false →
        (∀ j (hj : j < oC3.observations.length),
          (getBestResult oC3).value ≤ (oC3.observations.get ⟨j, hj⟩).value) ∧
        (∀ j (hj : j < oC3.observations.length), j < i →
          (getBestResult oC3).value < (oC3.observations.get ⟨j, hj⟩).value))) :=
  ⟨by simp [oC3], getBestResult_extremum_earliest oC3 (by simp [oC3])⟩

/-- C4 counterexample input: an optimizer holding zero observations. -/
def oC4 : SimpleBayesianOptimizer := ⟨[], [(0, 10)], false⟩

/-- C4 counterexample: `getBestResult()` on a log with zero observations does
not fail with `EmptyLog`; it returns the ordinary result
`{params: [], value: 0}`. -/
theorem getBestResult_empty_no_failure : getBestResult oC4 = { params := [], value := 0 } := by
  simp [getBestResult, oC4]

/-- C4 amended: on any optimizer whose log is empty, `getBestResult()` returns
the sentinel `{params: [], value: 0}`; no request- or session-fatal failure
path exists. -/
theorem getBestResult_empty_sentinel (o : SimpleBayesianOptimizer)
    (h : o.observations = []) : getBestResult o = { params := [], value := 0 } := by
  simp [getBestResult, h]

/-- Witness for the amended C4 at a concrete maximizing optimizer. -/
theorem getBestResult_empty_sentinel_witness :
    (SimpleBayesianOptimizer.mk [] [(0, 5)] true).observations = [] ∧
    getBestResult (SimpleBayesianOptimizer.mk [] [(0, 5)] true) =
      { params := [], value := 0 } :=
  ⟨rfl, getBestResult_empty_sentinel (SimpleBayesianOptimizer.mk [] [(0, 5)] true) rfl⟩

/-- C10: for every bounds matrix and direction flag, `getBestResult()` on an
optimizer holding zero observations returns `{params: [], value: 0}` rather
than raising any error. -/
theorem getBestResult_empty_fixed_value (bounds : List (ℝ × ℝ)) (mx : Bool) :
    getBestResult (SimpleBayesianOptimizer.mk [] bounds mx) =
      { params := [], value := 0 } := by
  simp [getBestResult]

/-- C9 counterexample input: empty minimizing log. -/
def oC9 : SimpleBayesianOptimizer := ⟨[], [(0, 10)], false⟩

/-- C9 counterexample: under minimize, appending the first observation
(value 5) strictly increases the value reported by `getBestResult()`
(from the empty-log sentinel 0 to 5). -/
theorem getBestResult_not_monotone_from_empty :
    oC9.maximize = false ∧
    (getBestResult oC9).value < (getBestResult (addObservation oC9 [2] 5)).value := by
  constructor
  · rfl
  · norm_num [getBestResult, addObservation, oC9]

/-- C9 amended: from any non-empty log onward, the value reported by
`getBestResult()` never decreases (maximize) resp. never increases (minimize)
as a further observation is appended via `addObservation`. -/
theorem getBestResult_monotone (o : SimpleBayesianOptimizer) (p : List ℝ) (v : ℝ)
    (h : o.observations ≠ []) :
    (o.maximize = true →
      (getBestResult o).value ≤ (getBestResult (addObservation o p v)).value) ∧
    (o.maximize = false →
      (getBestResult (addObservation o p v)).value ≤ (getBestResult o).value) := by
  obtain ⟨i, hi, heq, _, _⟩ := getBestResult_spec o h
  have h' : (addObservation o p v).observations ≠ [] := by
    simp [addObservation]
  obtain ⟨i', hi', heq', hopt', _⟩ := getBestResult_spec (addObservation o p v) h'
  have hlen : i < (addObservation o p v).observations.length := by
    simp only [addObservation, List.length_append, List.length_cons, List.length_nil]
    omega
  have hmem : (addObservation o p v).observations.get ⟨i, hlen⟩ =
      o.observations.get ⟨i, hi⟩ := by
    simp only [addObservation]
    exact List.get_append i hi
  have hkey := hopt' i hlen
  rw [hmem, ← heq] at hkey
  have hmx : (addObservation o p v).maximize = o.maximize := rfl
  rw [hmx] at hkey
  constructor
  · intro hmax
    rw [hmax, beats_true_iff] at hkey
    exact not_lt.mp hkey
  · intro hmin
    rw [hmin, beats_false_iff] at hkey
    exact not_lt.mp hkey

/-- Witness for the amended C9 at a concrete one-element log. -/
theorem getBestResult_monotone_witness :
    (SimpleBayesianOptimizer.mk [⟨[1], 4⟩] [(0, 10)] false).observations ≠ [] ∧
    ((SimpleBayesianOptimizer.mk [⟨[1], 4⟩] [(0, 10)] false).maximize = true →
      (getBestResult (SimpleBayesianOptimizer.mk [⟨[1], 4⟩] [(0, 10)] false)).value ≤
        (getBestResult (addObservation
          (SimpleBayesianOptimizer.mk [⟨[1], 4⟩] [(0, 10)] false) [3] 7)).value) ∧
    ((SimpleBayesianOptimizer.mk [⟨[1], 4⟩] [(0, 10)] false).maximize = false →
      (getBestResult (addObservation
          (SimpleBayesianOptimizer.mk [⟨[1], 4⟩] [(0, 10)] false) [3] 7)).value ≤
        (getBestResult (SimpleBayesianOptimizer.mk [⟨[1], 4⟩] [(0, 10)] false)).value) :=
  ⟨by simp,
    (getBestResult_monotone (SimpleBayesianOptimizer.mk [⟨[1], 4⟩] [(0, 10)] false)
      [3] 7 (by simp)).1,
    (getBestResult_monotone (SimpleBayesianOptimizer.mk [⟨[1], 4⟩] [(0, 10)] false)
      [3] 7 (by simp)).2⟩

lemma calculateDistance_nonneg (a b : List ℝ) : 0 ≤ calculateDistance a b :=
  Real.sqrt_nonneg _

lemma calculateDistance_self (a : List ℝ) : calculateDistance a a = 0 := by
  rw [calculateDistance]
  have h : ∀ l : List ℝ, ((l.zip l).map (fun p => (p.1 - p.2) ^ 2)).sum = 0 := by
    intro l
    induction l with
    | nil => simp
    | cons x xs ih => simp [ih]
  rw [h a, Real.sqrt_zero]

/-- Accumulating a pair of running sums over a list equals the pair of sums
of the mapped lists. -/
lemma foldl_pair_sum (l : List Observation) (f g : Observation → ℝ) (a b : ℝ) :
    l.foldl (fun acc obs => (acc.1 + f obs, acc.2 + g obs)) (a, b) =
      (a + (l.map f).sum, b + (l.map g).sum) := by
  induction l generalizing a b with
  | nil => simp
  | cons x xs ih =>
    rw [List.foldl_cons, ih]
    simp [add_assoc]

/-- Running strict minimum over a list, started from a seed value. -/
lemma foldMin_some (f : Observation → ℝ) (l : List Observation) (d : ℝ) :
    ∃ m, l.foldl (fun m obs =>
        match m with
        | none => some (f obs)
        | some d' => if f obs < d' then some (f obs) else some d') (some d) = some m ∧
      (m = d ∨ ∃ obs ∈ l, m = f obs) ∧ m ≤ d ∧ ∀ obs ∈ l, m ≤ f obs := by
  induction l generalizing d with
  | nil => exact ⟨d, rfl, Or.inl rfl, le_refl d, by simp⟩
  | cons x xs ih =>
    obtain ⟨m, hm, hmem, hle, hall⟩ := ih (if f x < d then f x else d)
    have hm' : (x :: xs).foldl (fun m obs =>
        match m with
        | none => some (f obs)
        | some d' => if f obs < d' then some (f obs) else some d') (some d) = some m := by
      show xs.foldl (fun m obs =>
        match m with
        | none => some (f obs)
        | some d' => if f obs < d' then some (f obs) else some d')
        (if f x < d then some (f x) else some d) = some m
      by_cases hx : f x < d
      · rw [if_pos hx]
        rw [if_pos hx] at hm
        exact hm
      · rw [if_neg hx]
        rw [if_neg hx] at hm
        exact hm
    refine ⟨m, hm', ?_, ?_, ?_⟩
    · rcases hmem with heq | ⟨obs, hobs, heq⟩
      · by_cases hx : f x < d
        · exact Or.inr ⟨x, List.mem_cons_self x xs, by rw [heq, if_pos hx]⟩
        · left; rw [heq, if_neg hx]
      · exact Or.inr ⟨obs, List.mem_cons_of_mem x hobs, heq⟩
    · by_cases hx : f x < d
      · rw [if_pos hx] at hle; linarith
      · rwa [if_neg hx] at hle
    · intro obs hobs
      rcases List.mem_cons.mp hobs with rfl | hobs'
      · by_cases hx : f obs < d
        · rwa [if_pos hx] at hle
        · rw [if_neg hx] at hle; push_neg at hx; linarith
      · exact hall obs hobs'

/-- Running strict minimum over a non-empty list, started from the JS
`Infinity` sentinel (`none`). -/
lemma foldMin_none (f : Observation → ℝ) (l : List Observation) (h : l ≠ []) :
    ∃ m, l.foldl (fun m obs =>
        match m with
        | none => some (f obs)
        | some d' => if f obs < d' then some (f obs) else some d') none = some m ∧
      (∃ obs ∈ l, m = f obs) ∧ ∀ obs ∈ l, m ≤ f obs := by
  obtain ⟨y, ys, rfl⟩ := List.exists_cons_of_ne_nil h
  rw [List.foldl_cons]
  obtain ⟨m, hm, hmem, hle, hall⟩ := foldMin_some f ys (f y)
  refine ⟨m, hm, ?_, ?_⟩
  · rcases hmem with heq | ⟨obs, hobs, heq⟩
    · exact ⟨y, List.mem_cons_self y ys, heq⟩
    · exact ⟨obs, List.mem_cons_of_mem y hobs, heq⟩
  · intro obs hobs
    rcases List.mem_cons.mp hobs with rfl | hobs'
    · exact hle
    · exact hall obs hobs'

/-- The running-sums form of `estimateMean` equals the spec's
`Σ(weight·value) / Σ(weight)` quotient, with `0` on an empty log. -/
lemma estimateMean_eq (o : SimpleBayesianOptimizer) (x : List ℝ) :
    estimateMean o x =
      if o.observations.isEmpty then 0
      else ((o.observations.map
              (fun obs => (1 / (1 + calculateDistance x obs.params)) * obs.value)).sum) /
           ((o.observations.map
              (fun obs => 1 / (1 + calculateDistance x obs.params))).sum) := by
  have hfold : o.observations.foldl
      (fun (acc : ℝ × ℝ) obs =>
        let distance := calculateDistance x obs.params
        let weight := 1 / (1 + distance)
        (acc.1 + weight, acc.2 + weight * obs.value)) (0, 0) =
      ((o.observations.map (fun obs => 1 / (1 + calculateDistance x obs.params))).sum,
       (o.observations.map
         (fun obs => (1 / (1 + calculateDistance x obs.params)) * obs.value)).sum) := by
    have h := foldl_pair_sum o.observations
      (fun obs => 1 / (1 + calculateDistance x obs.params))
      (fun obs => (1 / (1 + calculateDistance x obs.params)) * obs.value) 0 0
    simpa using h
  unfold estimateMean
  rw [hfold]
  rcases heq : o.observations with _ | ⟨y, ys⟩
  · simp
  · have hpos : 0 < ((y :: ys).map
        (fun obs => 1 / (1 + calculateDistance x obs.params))).sum := by
      apply List.sum_pos
      · intro w hw
        obtain ⟨obs, _, rfl⟩ := List.mem_map.mp hw
        have hd := calculateDistance_nonneg x obs.params
        positivity
      · simp
    simp only [List.isEmpty_cons, if_pos hpos, Bool.false_eq_true, if_false]

/-- Exploration term on an empty log is the nominal default 1. -/
lemma calculateExploration_empty (o : SimpleBayesianOptimizer) (x : List ℝ)
    (h : o.observations = []) : calculateExploration o x = 1 := by
  unfold calculateExploration
  rw [h]
  rfl

/-- Exploration term on a non-empty log is the distance to the nearest logged
observation: it is attained at some observation and bounds all distances from
below. -/
lemma calculateExploration_spec (o : SimpleBayesianOptimizer) (x : List ℝ)
    (h : o.observations ≠ []) :
    (∃ obs ∈ o.observations,
      calculateExploration o x = calculateDistance x obs.params) ∧
    ∀ obs ∈ o.observations,
      calculateExploration o x ≤ calculateDistance x obs.params := by
  obtain ⟨m, hm, hmem, hall⟩ :=
    foldMin_none (fun obs => calculateDistance x obs.params) o.observations h
  have hexp : calculateExploration o x = m := by
    unfold calculateExploration
    rw [hm]
  constructor
  · obtain ⟨obs, hobs, heq⟩ := hmem
    exact ⟨obs, hobs, by rw [hexp, heq]⟩
  · intro obs hobs
    rw [hexp]
    exact hall obs hobs

/-- C2: the acquisition score is `mean + explore` when maximizing and
`mean - explore` when minimizing; `mean` is the inverse-distance-weighted
average `Σ(weight·value)/Σ(weight)` with `weight = 1/(1 + distance)` and `0`
on an empty log; `explore` is the distance to the nearest logged observation
and `1` on an empty log. -/
theorem calculateAcquisition_full_spec (o : SimpleBayesianOptimizer) (x : List ℝ) :
    (calculateAcquisition o x =
      if o.maximize then estimateMean o x + calculateExploration o x
      else estimateMean o x - calculateExploration o x) ∧
    (estimateMean o x =
      if o.observations.isEmpty then 0
      else ((o.observations.map
              (fun obs => (1 / (1 + calculateDistance x obs.params)) * obs.value)).sum) /
           ((o.observations.map
              (fun obs => 1 / (1 + calculateDistance x obs.params))).sum)) ∧
    (o.observations = [] → calculateExploration o x = 1) ∧
    (o.observations ≠ [] →
      (∃ obs ∈ o.observations,
        calculateExploration o x = calculateDistance x obs.params) ∧
      ∀ obs ∈ o.observations,
        calculateExploration o x ≤ calculateDistance x obs.params) :=
  ⟨rfl, estimateMean_eq o x, calculateExploration_empty o x,
    calculateExploration_spec o x⟩

/-- Sample optimizer for the C2 witness: spec Scenario A (bounds `[[0,10]]`,
minimize, one observation `([2], 5)`). -/
def oC2 : SimpleBayesianOptimizer := ⟨[⟨[2], 5⟩], [(0, 10)], false⟩

/-- Witness for C2, evaluating the acquisition pieces at Scenario A:
`mean([2]) = 5`, `explore([2]) = 0`, score `= 5 - 0`. -/
theorem calculateAcquisition_full_spec_witness :
    estimateMean oC2 [2] = 5 ∧ calculateExploration oC2 [2] = 0 ∧
    calculateAcquisition oC2 [2] = 5 - 0 := by
  obtain ⟨hcomb, hmean, _, hexp⟩ := calculateAcquisition_full_spec oC2 [2]
  have hd : calculateDistance [2] [(2 : ℝ)] = 0 := calculateDistance_self [2]
  have hm : estimateMean oC2 [2] = 5 := by
    rw [hmean]
    simp only [oC2, List.isEmpty_cons, List.map_cons, List.map_nil, hd]
    norm_num
  have he : calculateExploration oC2 [2] = 0 := by
    obtain ⟨⟨obs, hobs, heq⟩, hall⟩ := hexp (by simp [oC2])
    have hobs' : obs = ⟨[2], 5⟩ := by
      simpa [oC2] using hobs
    rw [heq, hobs', hd]
  refine ⟨hm, he, ?_⟩
  rw [hcomb]
  have hmx : oC2.maximize = false := rfl
  rw [hmx, hm, he]
  simp

lemma beats_trans (mx : Bool) {a b c : ℝ} (h1 : beats mx a b) (h2 : beats mx b c) :
    beats mx a c := by
  rcases mx <;> simp [beats] at h1 h2 ⊢ <;> linarith

lemma not_beats_trans (mx : Bool) {a b c : ℝ} (h1 : ¬ beats mx a b)
    (h2 : ¬ beats mx b c) : ¬ beats mx a c := by
  rcases mx <;> simp [beats] at h1 h2 ⊢ <;> linarith

/-- Selection semantics of the candidate loop: walk the candidate list keeping
the incumbent unless strictly beaten. -/
noncomputable def pickBest (mx : Bool) (score : List ℝ → ℝ) :
    List (List ℝ) → List ℝ → List ℝ
  | [], best => best
  | c :: cs, best =>
    pickBest mx score cs (if beats mx (score c) (score best) then c else best)

lemma pickBest_nil (mx : Bool) (score : List ℝ → ℝ) (b : List ℝ) :
    pickBest mx score [] b = b := by
  rw [pickBest]

lemma pickBest_cons (mx : Bool) (score : List ℝ → ℝ) (c : List ℝ)
    (cs : List (List ℝ)) (b : List ℝ) :
    pickBest mx score (c :: cs) b =
      pickBest mx score cs (if beats mx (score c) (score b) then c else b) := by
  rw [pickBest]

/-- The loop of `acquisitionFunction`, once seeded with a first candidate,
computes `pickBest` together with the incumbent's score. -/
lemma foldSel_eq (mx : Bool) (score : List ℝ → ℝ) (cand : ℕ → List ℝ)
    (l : List ℕ) (b : List ℝ) :
    l.foldl (fun (best : List ℝ × Option ℝ) i =>
        let candidate := cand i
        let acquisition := score candidate
        match best.2 with
        | none => (candidate, some acquisition)
        | some bv =>
          if beats mx acquisition bv then (candidate, some acquisition) else best)
      (b, some (score b)) =
      (pickBest mx score (l.map cand) b,
        some (score (pickBest mx score (l.map cand) b))) := by
  induction l generalizing b with
  | nil =>
    rw [List.foldl_nil, List.map_nil, pickBest_nil]
  | cons i is ih =>
    rw [List.foldl_cons, List.map_cons]
    show is.foldl (fun (best : List ℝ × Option ℝ) i =>
        let candidate := cand i
        let acquisition := score candidate
        match best.2 with
        | none => (candidate, some acquisition)
        | some bv =>
          if beats mx acquisition bv then (candidate, some acquisition) else best)
      (if beats mx (score (cand i)) (score b)
        then (cand i, some (score (cand i))) else (b, some (score b))) = _
    by_cases hbt : beats mx (score (cand i)) (score b)
    · rw [if_pos hbt, pickBest_cons, if_pos hbt]
      exact ih (cand i)
    · rw [if_neg hbt, pickBest_cons, if_neg hbt]
      exact ih b

/-- Characterisation of `pickBest`: the result comes from the incumbent or the
list, no examined candidate strictly beats it, and when it displaced the
incumbent it strictly beats the incumbent and every candidate generated
before it. -/
lemma pickBest_spec (mx : Bool) (score : List ℝ → ℝ) :
    ∀ (cs : List (List ℝ)) (b : List ℝ),
      (pickBest mx score cs b = b ∨ pickBest mx score cs b ∈ cs) ∧
      ¬ beats mx (score b) (score (pickBest mx score cs b)) ∧
      (∀ c ∈ cs, ¬ beats mx (score c) (score (pickBest mx score cs b))) ∧
      (pickBest mx score cs b ≠ b →
        ∃ l1 l2, cs = l1 ++ pickBest mx score cs b :: l2 ∧
          beats mx (score (pickBest mx score cs b)) (score b) ∧
          ∀ c ∈ l1, beats mx (score (pickBest mx score cs b)) (score c)) := by
  intro cs
  induction cs with
  | nil =>
    intro b
    rw [pickBest_nil]
    exact ⟨Or.inl rfl, beats_irrefl mx (score b),
      fun c hc => absurd hc (List.not_mem_nil c), fun h => absurd rfl h⟩
  | cons c cs ih =>
    intro b
    have hpb : pickBest mx score (c :: cs) b =
        pickBest mx score cs (if beats mx (score c) (score b) then c else b) :=
      pickBest_cons mx score c cs b
    by_cases hcb : beats mx (score c) (score b)
    · rw [if_pos hcb] at hpb
      obtain ⟨ha, hb2, hc2, hd2⟩ := ih c
      rw [hpb]
      refine ⟨?_, ?_, ?_, ?_⟩
      · rcases ha with h | h
        · exact Or.inr (by rw [h]; exact List.mem_cons_self c cs)
        · exact Or.inr (List.mem_cons_of_mem c h)
      · intro hbr
        exact hb2 (beats_trans mx hcb hbr)
      · intro x hx
        rcases List.mem_cons.mp hx with rfl | hx'
        · exact hb2
        · exact hc2 x hx'
      · intro _
        by_cases hrc : pickBest mx score cs c = c
        · refine ⟨[], cs, ?_, ?_, ?_⟩
          · rw [hrc, List.nil_append]
          · rw [hrc]; exact hcb
          · intro x hx; exact absurd hx (List.not_mem_nil x)
        · obtain ⟨l1, l2, hsplit, hbt, hall⟩ := hd2 hrc
          refine ⟨c :: l1, l2, ?_, ?_, ?_⟩
          · rw [List.cons_append, ← hsplit]
          · exact beats_trans mx hbt hcb
          · intro x hx
            rcases List.mem_cons.mp hx with rfl | hx'
            · exact hbt
            · exact hall x hx'
    · rw [if_neg hcb] at hpb
      obtain ⟨ha, hb2, hc2, hd2⟩ := ih b
      rw [hpb]
      refine ⟨?_, ?_, ?_, ?_⟩
      · rcases ha with h | h
        · exact Or.inl h
        · exact Or.inr (List.mem_cons_of_mem c h)
      · exact hb2
      · intro x hx
        rcases List.mem_cons.mp hx with rfl | hx'
        · exact not_beats_trans mx hcb hb2
        · exact hc2 x hx'
      · intro hrb
        obtain ⟨l1, l2, hsplit, hbt, hall⟩ := hd2 hrb
        refine ⟨c :: l1, l2, ?_, ?_, ?_⟩
        · rw [List.cons_append, ← hsplit]
        · exact hbt
        · intro x hx
          rcases List.mem_cons.mp hx with rfl | hx'
          · exact beats_trans_not mx hbt hcb
          · exact hall x hx'

lemma sampleVector_length (bounds : List (ℝ × ℝ)) (rnd : ℕ → ℝ) (k : ℕ) :
    (sampleVector bounds rnd k).length = bounds.length := by
  simp [sampleVector]

lemma sampleVector_getElem (bounds : List (ℝ × ℝ)) (rnd : ℕ → ℝ) (k i : ℕ)
    (h : i < bounds.length) (h2 : i < (sampleVector bounds rnd k).length) :
    (sampleVector bounds rnd k)[i] =
      (bounds[i]).1 + rnd (k + i) * ((bounds[i]).2 - (bounds[i]).1) := by
  simp [sampleVector]

/-- A sampled coordinate stays inside its bound interval when the random
stream lives in `[0, 1)` and the bounds are well-formed. -/
lemma sampleVector_mem_bounds (bounds : List (ℝ × ℝ)) (rnd : ℕ → ℝ) (k : ℕ)
    (hb : ∀ p ∈ bounds, p.1 < p.2) (hr : ∀ n, 0 ≤ rnd n ∧ rnd n < 1)
    (i : ℕ) (h : i < bounds.length) (h2 : i < (sampleVector bounds rnd k).length) :
    (bounds[i]).1 ≤ (sampleVector bounds rnd k)[i] ∧
      (sampleVector bounds rnd k)[i] ≤ (bounds[i]).2 := by
  rw [sampleVector_getElem bounds rnd k i h h2]
  have hmem : bounds[i] ∈ bounds := List.getElem_mem h
  have hlohi := hb _ hmem
  obtain ⟨hr0, hr1⟩ := hr (k + i)
  have hpos : 0 < (bounds[i]).2 - (bounds[i]).1 := sub_pos.mpr hlohi
  have hm0 : 0 ≤ rnd (k + i) * ((bounds[i]).2 - (bounds[i]).1) :=
    mul_nonneg hr0 (le_of_lt hpos)
  have hm1 : rnd (k + i) * ((bounds[i]).2 - (bounds[i]).1) <
      1 * ((bounds[i]).2 - (bounds[i]).1) :=
    mul_lt_mul_of_pos_right hr1 hpos
  constructor <;> linarith

/-- The candidate loop of `acquisitionFunction` computes `pickBest` seeded with
the first of the 100 sampled candidates. -/
lemma acquisitionFunction_pick (o : SimpleBayesianOptimizer) (rnd : ℕ → ℝ) :
    acquisitionFunction o rnd =
      pickBest o.maximize (calculateAcquisition o)
        (((List.range 99).map Nat.succ).map
          (fun i => sampleVector o.bounds rnd (i * o.bounds.length)))
        (sampleVector o.bounds rnd (0 * o.bounds.length)) := by
  have hr : List.range 100 = 0 :: (List.range 99).map Nat.succ := by
    rw [show (100 : ℕ) = 99 + 1 from rfl, List.range_succ_eq_map]
  simp only [acquisitionFunction]
  rw [hr, List.foldl_cons]
  exact congrArg Prod.fst
    (foldSel_eq o.maximize (calculateAcquisition o)
      (fun i => sampleVector o.bounds rnd (i * o.bounds.length))
      ((List.range 99).map Nat.succ)
      (sampleVector o.bounds rnd (0 * o.bounds.length)))

/-- C1: `suggest()` follows the two-regime algorithm.  With fewer than 3
observations each coordinate is the uniform transform `lo + u·(hi - lo)` of a
fresh random draw.  With 3 or more observations exactly 100 uniform candidate
vectors are drawn; the returned vector occurs among them, no candidate
strictly beats its acquisition score, and every candidate generated before it
is strictly beaten, so the earliest-generated best candidate wins ties. -/
theorem suggest_two_regime (o : SimpleBayesianOptimizer) (rnd : ℕ → ℝ) :
    (o.observations.length < 3 →
      (suggest o rnd).length = o.bounds.length ∧
      ∀ i (h : i < o.bounds.length) (h2 : i < (suggest o rnd).length),
        (suggest o rnd)[i] =
          (o.bounds[i]).1 + rnd i * ((o.bounds[i]).2 - (o.bounds[i]).1)) ∧
    (3 ≤ o.observations.length →
      ((List.range 100).map
        (fun i => sampleVector o.bounds rnd (i * o.bounds.length))).length = 100 ∧
      (∀ j (hj : j < ((List.range 100).map
          (fun i => sampleVector o.bounds rnd (i * o.bounds.length))).length)
        (i : ℕ) (hi : i < o.bounds.length)
        (hi2 : i < (((List.range 100).map
          (fun i => sampleVector o.bounds rnd (i * o.bounds.length)))[j]).length),
        (((List.range 100).map
          (fun i => sampleVector o.bounds rnd (i * o.bounds.length)))[j])[i] =
          (o.bounds[i]).1 +
            rnd (j * o.bounds.length + i) * ((o.bounds[i]).2 - (o.bounds[i]).1)) ∧
      ∃ l1 l2,
        (List.range 100).map
          (fun i => sampleVector o.bounds rnd (i * o.bounds.length)) =
            l1 ++ suggest o rnd :: l2 ∧
        (∀ c ∈ (List.range 100).map
            (fun i => sampleVector o.bounds rnd (i * o.bounds.length)),
          ¬ beats o.maximize (calculateAcquisition o c)
            (calculateAcquisition o (suggest o rnd))) ∧
        (∀ c ∈ l1, beats o.maximize (calculateAcquisition o (suggest o rnd))
          (calculateAcquisition o c))) := by
  constructor
  · intro hcold
    have heq : suggest o rnd = sampleVector o.bounds rnd 0 := by
      rw [suggest, if_pos hcold]
    rw [heq]
    refine ⟨sampleVector_length o.bounds rnd 0, ?_⟩
    intro i h h2
    rw [sampleVector_getElem o.bounds rnd 0 i h h2, Nat.zero_add]
  · intro hwarm
    have heq : suggest o rnd = acquisitionFunction o rnd := by
      rw [suggest, if_neg (by omega)]
    have hcands : (List.range 100).map
        (fun i => sampleVector o.bounds rnd (i * o.bounds.length)) =
        sampleVector o.bounds rnd (0 * o.bounds.length) ::
          ((List.range 99).map Nat.succ).map
            (fun i => sampleVector o.bounds rnd (i * o.bounds.length)) := by
      rw [show (100 : ℕ) = 99 + 1 from rfl, List.range_succ_eq_map, List.map_cons]
    refine ⟨by rw [List.length_map, List.length_range], ?_, ?_⟩
    · intro j hj i hi hi2
      simp only [List.getElem_map, List.getElem_range] at hi2 ⊢
      exact sampleVector_getElem o.bounds rnd (j * o.bounds.length) i hi hi2
    · rw [heq, acquisitionFunction_pick, hcands]
      obtain ⟨ha, hb2, hc2, hd2⟩ := pickBest_spec o.maximize (calculateAcquisition o)
        (((List.range 99).map Nat.succ).map
          (fun i => sampleVector o.bounds rnd (i * o.bounds.length)))
        (sampleVector o.bounds rnd (0 * o.bounds.length))
      by_cases hr0 : pickBest o.maximize (calculateAcquisition o)
          (((List.range 99).map Nat.succ).map
            (fun i => sampleVector o.bounds rnd (i * o.bounds.length)))
          (sampleVector o.bounds rnd (0 * o.bounds.length)) =
          sampleVector o.bounds rnd (0 * o.bounds.length)
      · refine ⟨[], ((List.range 99).map Nat.succ).map
          (fun i => sampleVector o.bounds rnd (i * o.bounds.length)), ?_, ?_, ?_⟩
        · rw [List.nil_append, hr0]
        · intro c hc
          rcases List.mem_cons.mp hc with rfl | hc'
          · rw [hr0] at hb2 ⊢
            exact beats_irrefl _ _
          · exact hc2 c hc'
        · intro c hc; exact absurd hc (List.not_mem_nil c)
      · obtain ⟨l1, l2, hsplit, hbt, hall⟩ := hd2 hr0
        refine ⟨sampleVector o.bounds rnd (0 * o.bounds.length) :: l1, l2, ?_, ?_, ?_⟩
        · rw [List.cons_append, ← hsplit]
        · intro c hc
          rcases List.mem_cons.mp hc with rfl | hc'
          · exact hb2
          · exact hc2 c hc'
        · intro c hc
          rcases List.mem_cons.mp hc with rfl | hc'
          · exact hbt
          · exact hall c hc'

/-- Sample optimizer for the C5 witness: warm regime, single dimension. -/
def oC5 : SimpleBayesianOptimizer :=
  ⟨[⟨[1], 1⟩, ⟨[2], 2⟩, ⟨[3], 3⟩], [(0, 10)], false⟩

/-- Constant-zero random stream used by concrete witnesses. -/
def rndZero : ℕ → ℝ := fun _ => 0

/-- C5: for any log size, under well-formed bounds (`lo < hi`) and a random
stream in `[0, 1)`, every coordinate of the vector returned by `suggest()`
lies inside the corresponding parameter's bound interval. -/
theorem suggest_within_bounds (o : SimpleBayesianOptimizer) (rnd : ℕ → ℝ)
    (hb : ∀ p ∈ o.bounds, p.1 < p.2) (hr : ∀ n, 0 ≤ rnd n ∧ rnd n < 1) :
    (suggest o rnd).length = o.bounds.length ∧
    ∀ i (h : i < o.bounds.length) (h2 : i < (suggest o rnd).length),
      (o.bounds[i]).1 ≤ (suggest o rnd)[i] ∧ (suggest o rnd)[i] ≤ (o.bounds[i]).2 := by
  have hform : ∃ k, suggest o rnd = sampleVector o.bounds rnd k := by
    by_cases hcold : o.observations.length < 3
    · exact ⟨0, by rw [suggest, if_pos hcold]⟩
    · have heq : suggest o rnd = acquisitionFunction o rnd := by
        rw [suggest, if_neg hcold]
      rw [heq, acquisitionFunction_pick]
      rcases (pickBest_spec o.maximize (calculateAcquisition o)
        (((List.range 99).map Nat.succ).map
          (fun i => sampleVector o.bounds rnd (i * o.bounds.length)))
        (sampleVector o.bounds rnd (0 * o.bounds.length))).1 with h | h
      · exact ⟨0 * o.bounds.length, h⟩
      · obtain ⟨j, _, hj⟩ := List.mem_map.mp h
        exact ⟨j * o.bounds.length, hj.symm⟩
  obtain ⟨k, hk⟩ := hform
  rw [hk]
  exact ⟨sampleVector_length o.bounds rnd k,
    fun i h h2 => sampleVector_mem_bounds o.bounds rnd k hb hr i h h2⟩

set_option maxRecDepth 10000 in
/-- Witness for C1: the warm regime applies at a concrete three-observation
optimizer, where the candidate pool has exactly 100 vectors. -/
theorem suggest_two_regime_witness :
    3 ≤ oC5.observations.length ∧
    ((List.range 100).map
      (fun i => sampleVector oC5.bounds rndZero (i * oC5.bounds.length))).length = 100 := by
  constructor
  · decide
  · exact ((suggest_two_regime oC5 rndZero).2 (by decide)).1

set_option maxRecDepth 10000 in
/-- Witness for C5 at a concrete warm-regime optimizer and the zero stream. -/
theorem suggest_within_bounds_witness :
    (∀ p ∈ oC5.bounds, p.1 < p.2) ∧ (∀ n, 0 ≤ rndZero n ∧ rndZero n < 1) ∧
    ((suggest oC5 rndZero).length = oC5.bounds.length ∧
      ∀ i (h : i < oC5.bounds.length) (h2 : i < (suggest oC5 rndZero).length),
        (oC5.bounds[i]).1 ≤ (suggest oC5 rndZero)[i] ∧
          (suggest oC5 rndZero)[i] ≤ (oC5.bounds[i]).2) := by
  have hb : ∀ p ∈ oC5.bounds, p.1 < p.2 := by
    intro p hp
    rw [show oC5.bounds = [((0 : ℝ), (10 : ℝ))] from rfl, List.mem_singleton] at hp
    rw [hp]
    norm_num
  have hr : ∀ n, 0 ≤ rndZero n ∧ rndZero n < 1 := by
    intro n
    constructor <;> norm_num [rndZero]
  exact ⟨hb, hr, suggest_within_bounds oC5 rndZero hb hr⟩

noncomputable section

/-- Value stored in a JS record: the app stores display values as strings;
numeric display strings (rounded integers, `toFixed(4)` output) are modelled
by their numeric content, which is what every later read of them (a category
lookup miss, `parseFloat`) extracts. -/
inductive JsVal where
  | s (v : String)
  | n (v : ℝ)

/-- Phase of the session state machine. -/
inductive Phase where
  | setup
  | manual
  | optimization
deriving DecidableEq

/-- Parameter definition row: free-text name, kind and range expression. -/
structure Parameter where
  name : String
  type : String
  range : String

/-- One history entry: raw display params and the raw objective string. -/
structure HistoryItem where
  params : List (String × JsVal)
  value : String

/-- One pending manual seed trial. -/
structure ManualTrial where
  params : List (String × JsVal)
  value : String

/-- Decoded best result held by the `results` state. -/
structure BestResult where
  params : List (String × JsVal)
  value : ℝ

/-- Session configuration persisted alongside the history. -/
structure SavedConfig where
  parameters : List Parameter
  direction : String
  trialCount : ℕ

/-- Record persisted under the single localStorage key. -/
structure StoredData where
  history : List HistoryItem
  phase : String
  config : Option SavedConfig

/-- The page's React state (main in-process variant), with localStorage
modelled as the `storage` field. -/
structure AppState where
  parameters : List Parameter
  direction : String
  results : Option BestResult
  isOptimizing : Bool
  currentParams : Option (List (String × JsVal))
  numericParams : Option (List ℝ)
  objectiveValue : String
  currentIter : ℕ
  totalIter : ℕ
  history : List HistoryItem
  error : String
  categoryMaps : List (String × List String)
  isLoading : Bool
  phase : Phase
  manualTrials : List ManualTrial
  currentTrialIndex : ℕ
  trialCount : ℕ
  savedConfig : Option SavedConfig
  optimizer : Option SimpleBayesianOptimizer
  storage : Option StoredData

/-- JS whitespace for `String.prototype.trim`, restricted to the forms the
app's inputs can contain. -/
def jsIsWhitespace (c : Char) : Bool :=
  c = ' ' || c = '\t' || c = '\n' || c = '\r'

/-- JS `trim()`: strip leading and trailing whitespace. -/
def jsTrim (s : String) : String :=
  ⟨((s.data.dropWhile jsIsWhitespace).reverse.dropWhile jsIsWhitespace).reverse⟩

/-- Worker for `splitOnChar`. -/
def splitOnCharAux (c : Char) : List Char → List Char → List String
  | [], acc => [⟨acc.reverse⟩]
  | x :: rest, acc =>
    if x = c then ⟨acc.reverse⟩ :: splitOnCharAux c rest []
    else splitOnCharAux c rest (x :: acc)

/-- JS `split(c)` on a single-character separator (empty pieces kept). -/
def splitOnChar (c : Char) (s : String) : List String := splitOnCharAux c s.data []

/-- JS `replace(/[...]/g, '')`: delete every occurrence of the given
characters. -/
def removeChars (bad : List Char) (s : String) : String :=
  ⟨s.data.filter (fun c => !(bad.contains c))⟩

/-- Numeric value of a digit list read left to right. -/
def natOfDigits (cs : List Char) : ℕ :=
  cs.foldl (fun n c => 10 * n + (c.toNat - 48)) 0

/-- JS `parseFloat` on the unsigned decimal forms the app admits (digits and
one dot; inputs are pre-filtered by the change handlers); `none` models
`NaN`. -/
def parseFloat? (s : String) : Option ℝ :=
  let cs := s.data.dropWhile (fun c => c = ' ')
  let intDigits := cs.takeWhile Char.isDigit
  let rest := cs.dropWhile Char.isDigit
  let fracDigits :=
    match rest with
    | '.' :: rs => rs.takeWhile Char.isDigit
    | _ => []
  if intDigits.isEmpty ∧ fracDigits.isEmpty then none
  else some ((natOfDigits intDigits : ℝ) +
    (natOfDigits fracDigits : ℝ) / 10 ^ fracDigits.length)

/-- Source `parseFloat` applied to a stored JS value: a number parses to itself. -/
def parseFloatVal : JsVal → Option ℝ
  | .s v => parseFloat? v
  | .n v => some v

/-- JS falsiness of a stored value (empty string, zero). -/
def jsFalsy : JsVal → Bool
  | .s v => v == ""
  | .n x => decide (x = 0)

/-- Delimiters of the range expression split `[-, ]+`. -/
def isDelim (c : Char) : Bool := c = '-' || c = ',' || c = ' '

lemma length_dropWhile_le {α : Type} (p : α → Bool) (l : List α) :
    (l.dropWhile p).length ≤ l.length := by
  induction l with
  | nil => simp
  | cons x xs ih =>
    rw [List.dropWhile_cons]
    by_cases h : p x = true
    · rw [if_pos h]
      exact Nat.le_succ_of_le ih
    · rw [if_neg h]

/-- Worker for `jsSplitRuns`, accumulating the current token reversed. -/
def splitRunsAux : List Char → List Char → List String
  | [], acc => [String.mk acc.reverse]
  | c :: rest, acc =>
    if isDelim c then
      String.mk acc.reverse :: splitRunsAux (rest.dropWhile isDelim) []
    else
      splitRunsAux rest (c :: acc)
termination_by l _ => l.length
decreasing_by
  · simp only [List.length_cons]
    exact Nat.lt_succ_of_le (length_dropWhile_le _ _)
  · simp only [List.length_cons]
    exact Nat.lt_succ_self _

/-- JS `String.split(/[-, ]+/)`: delimiter runs are merged, boundary runs
leave empty tokens. -/
def jsSplitRuns (s : String) : List String := splitRunsAux s.data []

/-- JS `Number()` on the forms reachable from range expressions: blank maps
to 0, otherwise the whole trimmed string must be an unsigned decimal;
`none` models `NaN`. -/
def jsNumber? (s : String) : Option ℝ :=
  let t := jsTrim s
  if t = "" then some 0
  else
    let intDigits := t.data.takeWhile Char.isDigit
    let rest := t.data.dropWhile Char.isDigit
    match rest with
    | [] => if intDigits.isEmpty then none else some (natOfDigits intDigits : ℝ)
    | '.' :: rs =>
      if (rs.dropWhile Char.isDigit).isEmpty ∧
          ¬ (intDigits.isEmpty ∧ (rs.takeWhile Char.isDigit).isEmpty) then
        some ((natOfDigits intDigits : ℝ) +
          (natOfDigits (rs.takeWhile Char.isDigit) : ℝ) /
            10 ^ (rs.takeWhile Char.isDigit).length)
      else none
    | _ => none

/-- Strip single and double quotes, as `replace(/['"]/g, '')` does. -/
def stripQuotes (s : String) : String := removeChars ['\'', '"'] s

/-- Category list of a categorical range expression: split on commas, trim,
strip quotes. -/
def parseCategories (range : String) : List String :=
  (splitOnChar ',' (jsTrim range)).map (fun c => stripQuotes (jsTrim c))

/-- Numeric pieces of a continuous/integer range expression:
brackets stripped, split on `[-, ]+` runs, each piece through `Number`. -/
def parseRangeNums (range : String) : List (Option ℝ) :=
  (jsSplitRuns (removeChars ['[', ']'] (jsTrim range))).map jsNumber?

/-- Bounds/category-map construction loop of `startOptimization`; the first
invalid parameter aborts with its error message. -/
def buildBounds : List Parameter → Except String (List (String × List String) × List (ℝ × ℝ))
  | [] => Except.ok ([], [])
  | param :: rest =>
    let name := jsTrim param.name
    if name = "" then buildBounds rest
    else if param.type == "categorical" then
      let categories := parseCategories param.range
      if categories.length < 2 then
        Except.error ("分类参数 " ++ name ++ " 必须至少包含2个类别。")
      else
        match buildBounds rest with
        | Except.error e => Except.error e
        | Except.ok (maps, bounds) =>
          Except.ok ((name, categories) :: maps,
            (0, (categories.length : ℝ) - 1) :: bounds)
    else
      let parsedRange := parseRangeNums param.range
      if parsedRange.length ≠ 2 ∨ (parsedRange.getD 0 none).isNone ∨
          (parsedRange.getD 1 none).isNone then
        Except.error (name ++ " 的范围无效。请使用例如 0-10 的格式。")
      else
        match buildBounds rest with
        | Except.error e => Except.error e
        | Except.ok (maps, bounds) =>
          Except.ok (maps,
            ((parsedRange.getD 0 none).getD 0, (parsedRange.getD 1 none).getD 0) :: bounds)

/-- Per-parameter numeric encoding used when registering a trial: categorical
labels through `indexOf` with fallback 0, everything else through
`parseFloat(...) || 0`. -/
def encodeOne (maps : List (String × List String)) (tp : List (String × JsVal))
    (param : Parameter) : ℝ :=
  if param.type == "categorical" then
    let categories := (List.lookup (jsTrim param.name) maps).getD []
    match List.lookup (jsTrim param.name) tp with
    | some (JsVal.s str) =>
      if str ∈ categories then (categories.indexOf str : ℝ) else 0
    | _ => 0
  else
    match List.lookup (jsTrim param.name) tp with
    | some v => (parseFloatVal v).getD 0
    | none => 0

/-- Encoding loop over the parameter rows: unnamed rows are skipped, every
named row contributes exactly one coordinate. -/
def encodeTrialParams (parameters : List Parameter)
    (maps : List (String × List String)) (tp : List (String × JsVal)) : List ℝ :=
  match parameters with
  | [] => []
  | param :: rest =>
    if jsTrim param.name = "" then encodeTrialParams rest maps tp
    else encodeOne maps tp param :: encodeTrialParams rest maps tp

/-- JS `Math.round` (half away from zero on the app's positive ranges). -/
def jsRound (x : ℝ) : ℤ := ⌊x + 1 / 2⌋

/-- Clamp `Math.max(0, Math.min(idx, len - 1))` of the category index. -/
def clampIdx (idx : ℤ) (len : ℕ) : ℕ := (max 0 (min idx ((len : ℤ) - 1))).toNat

/-- Numeric content of `toFixed(4)` output. -/
def toFixed4 (x : ℝ) : ℝ := (jsRound (x * 10000) : ℝ) / 10000

/-- Display decoding of a numeric vector, shared by the suggestion display
and the best-result display. -/
def decodeDisplay (parameters : List Parameter) (maps : List (String × List String))
    (vec : List ℝ) : List (String × JsVal) :=
  parameters.enum.foldl (fun acc pr =>
    let index := pr.1
    let param := pr.2
    let name := jsTrim param.name
    if name = "" then acc
    else if param.type == "categorical" then
      let categories := (List.lookup name maps).getD []
      let idx := jsRound (vec.getD index 0)
      acc ++ [(name, JsVal.s (categories.getD (clampIdx idx categories.length) ""))]
    else if param.type == "integer" then
      acc ++ [(name, JsVal.n (jsRound (vec.getD index 0) : ℝ))]
    else
      acc ++ [(name, JsVal.n (toFixed4 (vec.getD index 0)))]) []

/-- Source `fetchNextSuggest`: ask the optimizer for the next vector, decode it for
display, clear the objective input. -/
def fetchNextSuggest (s : AppState) (bayesOpt : SimpleBayesianOptimizer)
    (maps : List (String × List String)) (rnd : ℕ → ℝ) : AppState :=
  let nextParams := suggest bayesOpt rnd
  let displayParams := decodeDisplay s.parameters maps nextParams
  { s with
    numericParams := some nextParams,
    currentParams := some displayParams,
    objectiveValue := "",
    isLoading := false }

/-- Source `startOptimization` (in-process variant): build bounds, construct the
optimizer, register every manual trial, enter the optimization phase with
`totalIter = manualTrials.length + 30`, persist, and fetch a suggestion. -/
def startOptimization (s : AppState) (rnd : ℕ → ℝ) : AppState :=
  match buildBounds s.parameters with
  | Except.error msg => { s with error := msg }
  | Except.ok (localCategoryMaps, bounds) =>
    let bayesOpt0 : SimpleBayesianOptimizer :=
      { observations := [], bounds := bounds, maximize := s.direction == "maximize" }
    let bayesOpt := s.manualTrials.foldl (fun opt trial =>
      addObservation opt (encodeTrialParams s.parameters localCategoryMaps trial.params)
        ((parseFloat? trial.value).getD 0)) bayesOpt0
    fetchNextSuggest
      { s with
        error := "",
        categoryMaps := localCategoryMaps,
        optimizer := some bayesOpt,
        isOptimizing := true,
        phase := Phase.optimization,
        currentIter := s.manualTrials.length + 1,
        totalIter := s.manualTrials.length + 30,
        storage := some
          { history := s.history
            phase := "optimization"
            config := some
              { parameters := s.parameters
                direction := s.direction
                trialCount := s.trialCount } } }
      bayesOpt localCategoryMaps rnd

/-- Source `startManualInput`: validate the parameter rows and the seed count, then
initialize `trialCount` empty trials and enter manual seeding. -/
def startManualInput (s : AppState) : AppState :=
  let validParameters := s.parameters.filter
    (fun p => jsTrim p.name != "" && jsTrim p.range != "")
  if validParameters.length = 0 then
    { s with error := "请至少定义一个有效的参数。" }
  else if s.trialCount < 3 ∨ 10 < s.trialCount then
    { s with error := "试验数量必须在3到10之间。" }
  else
    { s with
      error := "",
      manualTrials := List.replicate s.trialCount
        { params := validParameters.map (fun p => (jsTrim p.name, JsVal.s "")),
          value := "" },
      phase := Phase.manual,
      currentTrialIndex := 0 }

/-- Source `submitManualTrial`: validate the current trial, append it to the history,
persist, and either advance to the next trial or start the optimization. -/
def submitManualTrial (s : AppState) (rnd : ℕ → ℝ) : AppState :=
  let currentTrial := s.manualTrials.getD s.currentTrialIndex ⟨[], ""⟩
  let emptyParams := (currentTrial.params.filter (fun p => jsFalsy p.2)).map
    (fun p => p.1)
  if 0 < emptyParams.length then
    { s with error := "请填写参数: " ++ String.intercalate ", " emptyParams }
  else if currentTrial.value == "" || (parseFloat? currentTrial.value).isNone then
    { s with error := "请输入有效的目标值。" }
  else
    let newHistory := s.history ++
      [{ params := currentTrial.params, value := currentTrial.value }]
    -- saveToStorage receives newHistory explicitly, but setHistory(newHistory)
    -- is a deferred React update: startOptimization, invoked synchronously in
    -- the same render, still reads the pre-append history through its closure,
    -- and the appended history becomes visible only after the handler returns.
    let s1 := { s with
      storage := some
        { history := newHistory
          phase := "manual"
          config := some
            { parameters := s.parameters
              direction := s.direction
              trialCount := s.trialCount } } }
    if s.currentTrialIndex < s.trialCount - 1 then
      { s1 with
        history := newHistory,
        currentTrialIndex := s.currentTrialIndex + 1,
        error := "" }
    else
      { startOptimization s1 rnd with history := newHistory }

/-- Source `handleRegister`: validate the objective value, register the observation,
persist, and either complete the session (clearing the stored record) or
advance the iteration and fetch the next suggestion. -/
def handleRegister (s : AppState) (rnd : ℕ → ℝ) : AppState :=
  if s.objectiveValue == "" || (parseFloat? s.objectiveValue).isNone then
    { s with error := "请输入有效的目标值。" }
  else
    match s.optimizer, s.numericParams with
    | some opt, some np =>
      let opt := addObservation opt np ((parseFloat? s.objectiveValue).getD 0)
      let newHistory := s.history ++
        [{ params := s.currentParams.getD [], value := s.objectiveValue }]
      let s := { s with
        optimizer := some opt,
        history := newHistory,
        storage := some
          { history := newHistory
            phase := "optimization"
            config := s.savedConfig } }
      if s.totalIter ≤ s.currentIter then
        let bestResult := getBestResult opt
        let bestDisplayParams := decodeDisplay s.parameters s.categoryMaps bestResult.params
        { s with
          results := some { params := bestDisplayParams, value := bestResult.value },
          isOptimizing := false,
          storage := none, history := [], savedConfig := none,
          isLoading := false }
      else
        fetchNextSuggest { s with currentIter := s.currentIter + 1 } opt s.categoryMaps rnd
    | _, _ => { s with error := "优化器未初始化" }

/-- Bounds/category-map reconstruction of `resumeOptimization`, which runs
without validation; an unparsable range entry (JS `NaN`) is modelled as 0 and
is never exercised by the claims. -/
def buildBoundsResume : List Parameter → List (String × List String) × List (ℝ × ℝ)
  | [] => ([], [])
  | param :: rest =>
    let (maps, bounds) := buildBoundsResume rest
    let name := jsTrim param.name
    if name = "" then (maps, bounds)
    else if param.type == "categorical" then
      let categories := parseCategories param.range
      ((name, categories) :: maps, (0, (categories.length : ℝ) - 1) :: bounds)
    else
      let parsedRange := parseRangeNums param.range
      (maps, ((parsedRange.getD 0 none).getD 0, (parsedRange.getD 1 none).getD 0) :: bounds)

/-- Source `resumeOptimization`: restore the saved configuration, set
`currentIter = history.length + 1` and `totalIter = history.length + 30`,
rebuild the optimizer by replaying the whole persisted history, and fetch a
suggestion. -/
def resumeOptimization (s : AppState) (rnd : ℕ → ℝ) : AppState :=
  match s.savedConfig with
  | none => s
  | some cfg =>
    let s := { s with
      parameters := cfg.parameters,
      direction := cfg.direction,
      trialCount := cfg.trialCount,
      phase := Phase.optimization,
      isOptimizing := true,
      currentIter := s.history.length + 1,
      totalIter := s.history.length + 30 }
    let mb := buildBoundsResume cfg.parameters
    let bayesOpt0 : SimpleBayesianOptimizer :=
      { observations := [], bounds := mb.2, maximize := cfg.direction == "maximize" }
    let bayesOpt := s.history.foldl (fun opt item =>
      addObservation opt (encodeTrialParams cfg.parameters mb.1 item.params)
        ((parseFloat? item.value).getD 0)) bayesOpt0
    fetchNextSuggest
      { s with categoryMaps := mb.1, optimizer := some bayesOpt, isLoading := false }
      bayesOpt mb.1 rnd

/-- Source `loadFromStorage` (mount effect): restore history and saved config; a
record persisted in the optimization phase drops the session back to setup
until the user resumes. -/
def loadFromStorage (s : AppState) : AppState :=
  match s.storage with
  | none => s
  | some data =>
    let s := { s with history := data.history, savedConfig := data.config }
    if data.phase == "optimization" then { s with phase := Phase.setup } else s

/-- Initial page state (`useState` defaults), over a given persisted record. -/
def initState (storage : Option StoredData) : AppState :=
  { parameters := [⟨"temperature10x", "continuous", "0-10"⟩,
                   ⟨"压力", "categorical", "a,b,c"⟩],
    direction := "minimize",
    results := none, isOptimizing := false, currentParams := none,
    numericParams := none, objectiveValue := "", currentIter := 0, totalIter := 0,
    history := [], error := "", categoryMaps := [], isLoading := false,
    phase := Phase.setup, manualTrials := [], currentTrialIndex := 0, trialCount := 3,
    savedConfig := none, optimizer := none, storage := storage }

/-- User edit of the parameter rows. -/
def setParameters (s : AppState) (ps : List Parameter) : AppState :=
  { s with parameters := ps }

/-- User edit of the objective-value input. -/
def setObjectiveValue (s : AppState) (v : String) : AppState :=
  { s with objectiveValue := v }

/-- Digit filter applied to integer parameter inputs. -/
def filterDigits (v : String) : String := ⟨v.data.filter Char.isDigit⟩

/-- Digit-and-dot filter applied to continuous parameter and objective
inputs. -/
def filterDigitsDot (v : String) : String :=
  ⟨v.data.filter (fun c => c.isDigit || c = '.')⟩

/-- Assignment `obj[key] = v` on a JS record modelled as an association
list. -/
def setParamKey (l : List (String × JsVal)) (k : String) (v : JsVal) :
    List (String × JsVal) :=
  if l.any (fun p => p.1 == k) then
    l.map (fun p => if p.1 == k then (p.1, v) else p)
  else l ++ [(k, v)]

/-- Source `handleManualParamChange`: type-dependent input filtering, then update of
one field of one trial. -/
def handleManualParamChange (s : AppState) (trialIndex : ℕ)
    (paramName value : String) : AppState :=
  let paramConfig := s.parameters.find? (fun p => jsTrim p.name == paramName)
  let newVal : String :=
    match paramConfig with
    | some p =>
      if p.type == "integer" then filterDigits value
      else if p.type == "continuous" then filterDigitsDot value
      else value
    | none => value
  let t := s.manualTrials.getD trialIndex ⟨[], ""⟩
  { s with
    manualTrials := s.manualTrials.set trialIndex
      { t with params := setParamKey t.params paramName (JsVal.s newVal) } }

/-- Source `handleManualValueChange`: digit-and-dot filtering of one trial's
objective value. -/
def handleManualValueChange (s : AppState) (trialIndex : ℕ) (value : String) :
    AppState :=
  let t := s.manualTrials.getD trialIndex ⟨[], ""⟩
  { s with
    manualTrials := s.manualTrials.set trialIndex
      { t with value := filterDigitsDot value } }

/-- A browser reload: the page restarts from the initial state over the
persisted record and runs the mount-time `loadFromStorage`. -/
def reloadPage (s : AppState) : AppState := loadFromStorage (initState s.storage)

end

/-- C8: from `Setup`, `startManualInput` advances to manual seeding exactly
when at least one parameter row has a non-blank name and a non-blank range and
the seed count lies in `[3, 10]`; on success exactly `trialCount` empty trials
are initialized, the trial index is 0 and no error is shown; on failure an
error message is surfaced and the phase does not advance. -/
theorem startManualInput_spec (s : AppState) (hphase : s.phase = Phase.setup) :
    (((s.parameters.filter
        (fun p => jsTrim p.name != "" && jsTrim p.range != "")).length ≠ 0 ∧
      3 ≤ s.trialCount ∧ s.trialCount ≤ 10) →
      (startManualInput s).phase = Phase.manual ∧
      (startManualInput s).manualTrials.length = s.trialCount ∧
      (∀ t ∈ (startManualInput s).manualTrials,
        t.value = "" ∧
        t.params = (s.parameters.filter
          (fun p => jsTrim p.name != "" && jsTrim p.range != "")).map
            (fun p => (jsTrim p.name, JsVal.s ""))) ∧
      (startManualInput s).currentTrialIndex = 0 ∧
      (startManualInput s).error = "") ∧
    (¬ ((s.parameters.filter
        (fun p => jsTrim p.name != "" && jsTrim p.range != "")).length ≠ 0 ∧
      3 ≤ s.trialCount ∧ s.trialCount ≤ 10) →
      (startManualInput s).phase = Phase.setup ∧
      (startManualInput s).error ≠ "") := by
  constructor
  · rintro ⟨hne, h3, h10⟩
    have h1 : ¬ ((s.parameters.filter
        (fun p => jsTrim p.name != "" && jsTrim p.range != "")).length = 0) := hne
    have h2 : ¬ (s.trialCount < 3 ∨ 10 < s.trialCount) := by omega
    have hsucc : startManualInput s =
        { s with
          error := "",
          manualTrials := List.replicate s.trialCount
            { params := (s.parameters.filter
                  (fun p => jsTrim p.name != "" && jsTrim p.range != "")).map
                (fun p => (jsTrim p.name, JsVal.s ""))
              value := "" },
          phase := Phase.manual,
          currentTrialIndex := 0 } := by
      simp only [startManualInput, if_neg h1, if_neg h2]
    rw [hsucc]
    refine ⟨rfl, by simp, ?_, rfl, rfl⟩
    intro t ht
    have ht' : t ∈ List.replicate s.trialCount
        ({ params := (s.parameters.filter
              (fun p => jsTrim p.name != "" && jsTrim p.range != "")).map
            (fun p => (jsTrim p.name, JsVal.s ""))
           value := "" } : ManualTrial) := ht
    rw [List.eq_of_mem_replicate ht']
    exact ⟨rfl, rfl⟩
  · intro hfail
    by_cases h1 : (s.parameters.filter
        (fun p => jsTrim p.name != "" && jsTrim p.range != "")).length = 0
    · have herr : startManualInput s = { s with error := "请至少定义一个有效的参数。" } := by
        simp only [startManualInput, if_pos h1]
      rw [herr]
      refine ⟨hphase, ?_⟩
      show ("请至少定义一个有效的参数。" : String) ≠ ""
      decide
    · have h2 : s.trialCount < 3 ∨ 10 < s.trialCount := by
        by_contra hc
        push_neg at hc
        exact hfail ⟨h1, hc.1, hc.2⟩
      have herr : startManualInput s = { s with error := "试验数量必须在3到10之间。" } := by
        simp only [startManualInput, if_neg h1, if_pos h2]
      rw [herr]
      refine ⟨hphase, ?_⟩
      show ("试验数量必须在3到10之间。" : String) ≠ ""
      decide

/-- Witness for C8 at the default initial state (two valid parameter rows,
seed count 3). -/
theorem startManualInput_spec_witness :
    (initState none).phase = Phase.setup ∧
    (startManualInput (initState none)).phase = Phase.manual ∧
    (startManualInput (initState none)).manualTrials.length = 3 := by
  have h := (startManualInput_spec (initState none) rfl).1
    ⟨by decide, by decide, by decide⟩
  exact ⟨rfl, h.1, h.2.1⟩

/-- Encoder following the spec's words for C6: the label's index, otherwise
"a numeric parse of the raw value or 0"; written for comparison with the
source encoder `encodeOne`. -/
noncomputable def specCategoricalEncode (categories : List String) (raw : String) : ℝ :=
  if raw ∈ categories then (categories.indexOf raw : ℝ) else (parseFloat? raw).getD 0

/-- C6 counterexample: for categories `["a","b","c"]` and the absent but
numeric label `"2"`, the source encoder yields `0` while the spec's
parse-fallback encoder yields `2`. -/
theorem encode_fallback_counterexample :
    encodeTrialParams [⟨"c", "categorical", "a,b,c"⟩] [("c", ["a", "b", "c"])]
      [("c", JsVal.s "2")] = [0] ∧
    specCategoricalEncode ["a", "b", "c"] "2" = 2 ∧ (0 : ℝ) ≠ 2 := by
  refine ⟨rfl, ?_, by norm_num⟩
  have h : specCategoricalEncode ["a", "b", "c"] "2" =
      ((2 : ℕ) : ℝ) + ((0 : ℕ) : ℝ) / 10 ^ (0 : ℕ) := rfl
  rw [h]
  push_cast
  norm_num

/-- C6 amended: registering a trial encodes exactly one coordinate per named
parameter row (a lookup miss is never fatal); a categorical label found in the
category list encodes to its index, and an absent label encodes to the
constant 0 regardless of the raw value. -/
theorem encode_categorical_fallback_zero (parameters : List Parameter)
    (maps : List (String × List String)) (tp : List (String × JsVal)) :
    (encodeTrialParams parameters maps tp).length =
      (parameters.filter (fun p => jsTrim p.name != "")).length ∧
    ∀ (p : Parameter), p.type = "categorical" →
      ∀ cats, (List.lookup (jsTrim p.name) maps).getD [] = cats →
      ∀ str, List.lookup (jsTrim p.name) tp = some (JsVal.s str) →
        (str ∈ cats → encodeOne maps tp p = (cats.indexOf str : ℝ)) ∧
        (str ∉ cats → encodeOne maps tp p = 0) := by
  constructor
  · induction parameters with
    | nil => rfl
    | cons param rest ih =>
      rw [encodeTrialParams, List.filter_cons]
      by_cases h : jsTrim param.name = ""
      · have hb : ¬ ((jsTrim param.name != "") = true) := by
          simp [h]
        rw [if_pos h, if_neg hb]
        exact ih
      · have hb : (jsTrim param.name != "") = true := by
          simp [h]
        rw [if_neg h, if_pos hb]
        rw [List.length_cons, List.length_cons, ih]
  · intro p hp cats hcats str hstr
    have hbp : (p.type == "categorical") = true := by
      rw [beq_iff_eq]
      exact hp
    simp only [encodeOne, hbp, if_true, hcats, hstr]
    constructor
    · intro hm
      rw [if_pos hm]
    · intro hm
      rw [if_neg hm]

lemma fetchNextSuggest_totalIter (s : AppState) (bayesOpt : SimpleBayesianOptimizer)
    (maps : List (String × List String)) (rnd : ℕ → ℝ) :
    (fetchNextSuggest s bayesOpt maps rnd).totalIter = s.totalIter := rfl

/-- Projections of a successful `startOptimization`: the horizon is
`manualTrials.length + 30` and the record it persists holds the history it
reads from its caller's render state. -/
lemma startOptimization_proj (s : AppState) (rnd : ℕ → ℝ)
    (maps : List (String × List String)) (bounds : List (ℝ × ℝ))
    (h : buildBounds s.parameters = Except.ok (maps, bounds)) :
    (startOptimization s rnd).totalIter = s.manualTrials.length + 30 ∧
    (startOptimization s rnd).storage = some
      { history := s.history
        phase := "optimization"
        config := some
          { parameters := s.parameters
            direction := s.direction
            trialCount := s.trialCount } } := by
  simp only [startOptimization]
  rw [h]
  exact ⟨rfl, rfl⟩

/-- C7 amended: entering the optimization phase by submitting the last manual
trial sets `totalIter = manualTrials.length + 30` (seed count plus 30), but
the record it persists holds only the pre-append history of `seedCount - 1`
observations (the deferred React history update is invisible to the
`startOptimization` closure); resuming a persisted session sets
`totalIter = persistedHistoryLength + 30` instead. -/
theorem iteration_horizon (s : AppState) (rnd : ℕ → ℝ) :
    (∀ maps bounds, buildBounds s.parameters = Except.ok (maps, bounds) →
      (startOptimization s rnd).totalIter = s.manualTrials.length + 30) ∧
    (∀ cfg, s.savedConfig = some cfg →
      (resumeOptimization s rnd).totalIter = s.history.length + 30) ∧
    (((s.manualTrials.getD s.currentTrialIndex ⟨[], ""⟩).params.filter
        (fun p => jsFalsy p.2)).length = 0 →
      ((s.manualTrials.getD s.currentTrialIndex ⟨[], ""⟩).value == "" ||
        (parseFloat? (s.manualTrials.getD s.currentTrialIndex ⟨[], ""⟩).value).isNone)
          = false →
      ¬ (s.currentTrialIndex < s.trialCount - 1) →
      ∀ maps bounds, buildBounds s.parameters = Except.ok (maps, bounds) →
        (submitManualTrial s rnd).totalIter = s.manualTrials.length + 30 ∧
        (submitManualTrial s rnd).history = s.history ++
          [{ params := (s.manualTrials.getD s.currentTrialIndex ⟨[], ""⟩).params
             value := (s.manualTrials.getD s.currentTrialIndex ⟨[], ""⟩).value }] ∧
        (submitManualTrial s rnd).storage = some
          { history := s.history
            phase := "optimization"
            config := some
              { parameters := s.parameters
                direction := s.direction
                trialCount := s.trialCount } }) := by
  refine ⟨?_, ?_, ?_⟩
  · intro maps bounds h
    exact (startOptimization_proj s rnd maps bounds h).1
  · intro cfg h
    simp only [resumeOptimization]
    rw [h]
    rfl
  · intro h1 h2 h3 maps bounds h4
    have hnot1 : ¬ (0 < (((s.manualTrials.getD s.currentTrialIndex ⟨[], ""⟩).params.filter
        (fun p => jsFalsy p.2)).map (fun p => p.1)).length) := by
      rw [List.length_map, h1]
      exact lt_irrefl 0
    have hnot2 : ¬ (((s.manualTrials.getD s.currentTrialIndex ⟨[], ""⟩).value == "" ||
        (parseFloat? (s.manualTrials.getD s.currentTrialIndex ⟨[], ""⟩).value).isNone)
          = true) := by
      rw [h2]
      simp
    simp only [submitManualTrial]
    rw [if_neg hnot1, if_neg hnot2, if_neg h3]
    refine ⟨?_, rfl, ?_⟩
    · exact (startOptimization_proj { s with
        storage := some
          { history := s.history ++
              [{ params := (s.manualTrials.getD s.currentTrialIndex ⟨[], ""⟩).params
                 value := (s.manualTrials.getD s.currentTrialIndex ⟨[], ""⟩).value }]
            phase := "manual"
            config := some
              { parameters := s.parameters
                direction := s.direction
                trialCount := s.trialCount } } } rnd maps bounds h4).1
    · exact (startOptimization_proj { s with
        storage := some
          { history := s.history ++
              [{ params := (s.manualTrials.getD s.currentTrialIndex ⟨[], ""⟩).params
                 value := (s.manualTrials.getD s.currentTrialIndex ⟨[], ""⟩).value }]
            phase := "manual"
            config := some
              { parameters := s.parameters
                direction := s.direction
                trialCount := s.trialCount } } } rnd maps bounds h4).2

noncomputable section

/-- Categorical parameter used by the C7 scenario. -/
def pC7 : Parameter := ⟨"c", "categorical", "a,b"⟩

/-- C7 scenario, step 1: define one categorical parameter and enter manual
seeding (seed count 3). -/
def sC7a : AppState := startManualInput (setParameters (initState none) [pC7])

/-- C7 scenario: trial 0 filled. -/
def sC7b : AppState :=
  handleManualValueChange (handleManualParamChange sC7a 0 "c" "a") 0 "1"

/-- C7 scenario: trial 0 submitted, trial 1 filled. -/
def sC7c : AppState :=
  handleManualValueChange
    (handleManualParamChange (submitManualTrial sC7b rndZero) 1 "c" "b") 1 "2"

/-- C7 scenario: trial 1 submitted, trial 2 filled. -/
def sC7d : AppState :=
  handleManualValueChange
    (handleManualParamChange (submitManualTrial sC7c rndZero) 2 "c" "a") 2 "3"

/-- C7 scenario: last trial submitted; the session enters the optimization
phase with `totalIter = 3 + 30 = 33`, while the persisted record holds only
the 2 seeds visible to the render-stale closure. -/
def sC7e : AppState := submitManualTrial sC7d rndZero

/-- C7 scenario: reload and resume; the restored history holds 2 items, so
the resumed horizon is `2 + 30 = 32`. -/
def sC7f : AppState := resumeOptimization (reloadPage sC7e) rndZero

end

/-- C7 counterexample: after the last of 3 manual trials the session enters
Optimizing with horizon 33 and 3 in-memory history items, but the record it
persists holds only 2; the first resume is then a reachable Optimizing state
with seed count 3 whose horizon is `32 = 2 + 30 = seedCount + 29`, not
`seedCount + 30 = 33`. -/
theorem iteration_horizon_counterexample :
    sC7e.phase = Phase.optimization ∧ sC7e.trialCount = 3 ∧
    sC7e.totalIter = 33 ∧ sC7e.history.length = 3 ∧
    (sC7e.storage.getD ⟨[], "", none⟩).history.length = 2 ∧
    sC7f.phase = Phase.optimization ∧ sC7f.trialCount = 3 ∧
    sC7f.totalIter = 32 ∧ sC7f.totalIter ≠ sC7f.trialCount + 30 := by
  have h1 : sC7f.totalIter = 32 := rfl
  have h2 : sC7f.trialCount = 3 := rfl
  refine ⟨rfl, rfl, rfl, rfl, rfl, rfl, h2, h1, ?_⟩
  rw [h1, h2]
  norm_num

/-- Witness for the amended C7: at the C7 scenario's last-submit state the
horizon is `seedCount + 30`, the persisted record carries the pre-append
history, and the resume over the persisted record gives
`persistedHistoryLength + 30`. -/
theorem iteration_horizon_witness :
    (submitManualTrial sC7d rndZero).totalIter = sC7d.manualTrials.length + 30 ∧
    (submitManualTrial sC7d rndZero).storage = some
      { history := sC7d.history
        phase := "optimization"
        config := some
          { parameters := sC7d.parameters
            direction := sC7d.direction
            trialCount := sC7d.trialCount } } ∧
    (resumeOptimization (reloadPage sC7e) rndZero).totalIter =
      (reloadPage sC7e).history.length + 30 := by
  have h := (iteration_horizon sC7d rndZero).2.2 (by decide) (by decide) (by decide)
    [("c", ["a", "b"])] [(0, (((["a", "b"] : List String).length : ℝ)) - 1)] rfl
  exact ⟨h.1, h.2.2,
    (iteration_horizon (reloadPage sC7e) rndZero).2.1 ⟨[pC7], "minimize", 3⟩ rfl⟩

/-- Witness for the amended C6: one named categorical row, label absent from
the category list, encodes to the single coordinate 0. -/
theorem encode_categorical_fallback_zero_witness :
    (encodeTrialParams [⟨"c", "categorical", "a,b"⟩] [("c", ["a", "b"])]
      [("c", JsVal.s "zzz")]).length = 1 ∧
    encodeOne [("c", ["a", "b"])] [("c", JsVal.s "zzz")]
      ⟨"c", "categorical", "a,b"⟩ = 0 := by
  have h := encode_categorical_fallback_zero [⟨"c", "categorical", "a,b"⟩]
    [("c", ["a", "b"])] [("c", JsVal.s "zzz")]
  refine ⟨?_, ?_⟩
  · rw [h.1]
    rfl
  · exact (h.2 ⟨"c", "categorical", "a,b"⟩ rfl ["a", "b"] rfl "zzz" rfl).2 (by decide)

end BayesApp
